import Mathlib

/-!
# Verification of the `DroneExtinguisher` dynamic-programming solver

Shallow embedding of `dynprog.py`.  All day/transition costs in the program
are floats that are either exact integers or `np.inf`; we model them as
`WithTop ℤ` (`⊤` plays the role of `np.inf`).  Coordinates and the
liter-cost-per-km rate are modelled as rationals; the ceiling of
`2 * distance * rate` (an irrational expression) is computed exactly on the
squared distance, which is rational.

The mutable object is modelled by explicit state passing: `__init__` becomes
`DroneExtinguisher.init`, the `dynamic_programming` method becomes a pure
function from the solver state to an `Option DPRun` (it is `none` exactly
when the Python code raises `UnboundLocalError`, which happens when the
backtrace bookkeeping at `k == num_drones - 1` reads the locals
`first_bag`/`drone_num` before any strict improvement ever assigned them).
-/

set_option linter.unusedVariables false

/-- Costs as used by the program: exact integers or `np.inf`. -/
abbrev Cost := WithTop ℤ

/-- Python's `min` on a non-empty list (`[]` is mapped to `⊤`; the program
only ever calls it on non-empty lists, cf. `if temp_optimal_cost_list:`). -/
def listMin : List Cost → Cost
  | [] => ⊤
  | x :: xs => xs.foldl min x

/-- Least `n : ℕ` with `m ≤ n * n`, by bounded linear search
(`n = m` always satisfies the bound, so fuel `m` suffices). -/
def natCeilSqrtAux (m : ℕ) : ℕ → ℕ → ℕ
  | n, 0 => n
  | n, f + 1 => if m ≤ n * n then n else natCeilSqrtAux m (n + 1) f

def natCeilSqrt (m : ℕ) : ℕ := natCeilSqrtAux m 0 m

/-- `⌈Real.sqrt x⌉` for a rational `x`, computed exactly: for `x > 0` this is
the least `n : ℕ` with `x ≤ n^2`, i.e. with `⌈x⌉ ≤ n^2`. -/
def ratCeilSqrt (x : ℚ) : ℕ :=
  if x ≤ 0 then 0 else natCeilSqrt (Int.ceil x).toNat

/-- `compute_euclidean_distance`, squared:
`(point1[0]-point2[0])^2 + (point1[1]-point2[1])^2`.  The source returns the
square root; we keep the (rational) square and take the root inside the
ceiling in `fill_travel_costs_in_liters`. -/
def compute_euclidean_distance_sq (point1 point2 : ℚ × ℚ) : ℚ :=
  (point1.1 - point2.1) ^ 2 + (point1.2 - point2.2) ^ 2

/-- The solver state built by `DroneExtinguisher.__init__` (lines 7-48).
`idle_cost`, `optimal_cost` and `backtrace_memory` are the outputs of
`dynamic_programming` and are modelled as such below. -/
structure DroneExtinguisher where
  forest_location : ℚ × ℚ
  bags : List ℤ
  bag_locations : List (ℚ × ℚ)
  liter_cost_per_km : ℚ
  liter_budget_per_day : ℤ
  usage_cost : Option (List (List ℤ))
  num_bags : ℕ
  num_drones : ℕ
  travel_costs_in_liters : List ℤ
  deriving DecidableEq, Repr

/-- `__init__`: stores the inputs and sets
`num_bags = len(bags)` and
`num_drones = usage_cost.shape[1] if not usage_cost is None else 1`.
No validation of any kind is performed by the source. -/
def DroneExtinguisher.init (forest_location : ℚ × ℚ) (bags : List ℤ)
    (bag_locations : List (ℚ × ℚ)) (liter_cost_per_km : ℚ)
    (liter_budget_per_day : ℤ) (usage_cost : Option (List (List ℤ))) :
    DroneExtinguisher :=
  { forest_location := forest_location
    bags := bags
    bag_locations := bag_locations
    liter_cost_per_km := liter_cost_per_km
    liter_budget_per_day := liter_budget_per_day
    usage_cost := usage_cost
    num_bags := bags.length
    num_drones := match usage_cost with
      | none => 1
      | some u => (u.headD []).length
    travel_costs_in_liters := [] }

namespace DroneExtinguisher

/-- `fill_travel_costs_in_liters` (lines 66-77):
`travel_costs_in_liters[i] = np.ceil(2 * distance_i * liter_cost_per_km)`.
For the (nonnegative) rates used by the program this equals
`⌈sqrt((2 * liter_cost_per_km)^2 * distance_i^2)⌉`, which is what we
compute, exactly, on rationals. -/
def fill_travel_costs_in_liters (de : DroneExtinguisher) : DroneExtinguisher :=
  { de with travel_costs_in_liters :=
      (List.range de.num_bags).map (fun index =>
        (ratCeilSqrt ((2 * de.liter_cost_per_km) ^ 2 *
          compute_euclidean_distance_sq (de.bag_locations.getD index (0, 0))
            de.forest_location) : ℤ)) }

/-- `compute_sequence_idle_time_in_liters` (lines 80-100):
`liter_budget_per_day - Σ_{k=i..j} (travel_costs_in_liters[k] + bags[k])`,
written as the source's loop. -/
def compute_sequence_idle_time_in_liters (de : DroneExtinguisher) (i j : ℕ) : ℤ :=
  (List.range' i (j + 1 - i)).foldl
    (fun idle_time k => idle_time - de.travel_costs_in_liters.getD k 0 - de.bags.getD k 0)
    de.liter_budget_per_day

/-- `compute_idle_cost` (lines 102-124).  `np.inf` is `⊤`. -/
def compute_idle_cost (de : DroneExtinguisher) (i j : ℕ) (idle_time_in_liters : ℤ) : Cost :=
  if idle_time_in_liters < 0 then ⊤
  else if j + 1 = de.num_bags then 0
  else ((idle_time_in_liters ^ 3 : ℤ) : Cost)

/-- The entries of the `idle_cost` table filled by `dynamic_programming`
(lines 154-157): `idle_cost[i][j] = compute_idle_cost(i, j, idle_time(i, j))`.
Only entries with `i ≤ j` are filled and read by the program. -/
def idle_cost (de : DroneExtinguisher) (i j : ℕ) : Cost :=
  de.compute_idle_cost i j (de.compute_sequence_idle_time_in_liters i j)

/-- `compute_sequence_usage_cost` (lines 126-143):
`Σ_{bag_index=i..j} usage_cost[bag_index, k]`, written as the source's loop.
(The method is only called after `dynamic_programming` has replaced a missing
usage table by zeros, so `usage_cost` is a `some` there.) -/
def compute_sequence_usage_cost (de : DroneExtinguisher) (i j k : ℕ) : ℤ :=
  (List.range' i (j + 1 - i)).foldl
    (fun usage_cost bag_index =>
      usage_cost + ((de.usage_cost.getD []).getD bag_index []).getD k 0)
    0

/-- Lines 161-164 of `dynamic_programming`: if no usage cost is given,
replace it by an all-zero `num_bags × num_drones` table. -/
def usage_filled (de : DroneExtinguisher) : DroneExtinguisher :=
  match de.usage_cost with
  | none =>
      { de with
        usage_cost := some (List.replicate de.num_bags (List.replicate de.num_drones 0)) }
  | some _ => de

end DroneExtinguisher

/-- Entry `optimal_cost[i][k]` of the table (row `i`, column `k`),
with numpy's behaviour replaced by a total default (out-of-range reads never
happen in the verified region). -/
def cell (tbl : List (List Cost)) (i k : ℕ) : Cost :=
  (tbl.getD i []).getD k 0

/-- `self.optimal_cost[i][k] = v`. -/
def setCell (tbl : List (List Cost)) (i k : ℕ) (v : Cost) : List (List Cost) :=
  tbl.set i ((tbl.getD i []).set k v)

/-- The scan order of the three inner loops of `dynamic_programming`
(lines 185-187): `j` ascending over `range(0, i)`, `h` ascending over
`range(0, k+1)`, `l` ascending over `range(h, k+1)`. -/
def scan_triples (i k : ℕ) : List (ℕ × ℕ × ℕ) :=
  (List.range i).flatMap (fun j =>
    (List.range (k + 1)).flatMap (fun h =>
      (List.range' h (k + 1 - h)).map (fun l => (j, h, l))))

/-- `temp_optimal_cost` for the triple `t = (j, h, l)` at row `i`
(lines 188-189):
`optimal_cost[j][h] + idle_cost[j][i-1] + compute_sequence_usage_cost(j, i-1, l)`. -/
def transition_cost (de : DroneExtinguisher) (tbl : List (List Cost)) (i : ℕ)
    (t : ℕ × ℕ × ℕ) : Cost :=
  cell tbl t.1 t.2.1 + de.idle_cost t.1 (i - 1) +
    ((de.compute_sequence_usage_cost t.1 (i - 1) t.2.2 : ℤ) : Cost)

/-- The scanned triples of state `(i, k)` paired with their transition costs,
in scan order. -/
def dp_pairs (de : DroneExtinguisher) (tbl : List (List Cost)) (i k : ℕ) :
    List ((ℕ × ℕ × ℕ) × Cost) :=
  (scan_triples i k).map (fun t => (t, transition_cost de tbl i t))

/-- `temp_optimal_cost_list` of state `(i, k)`. -/
def cell_costs (de : DroneExtinguisher) (tbl : List (List Cost)) (i k : ℕ) :
    List Cost :=
  (dp_pairs de tbl i k).map Prod.snd

/-- The running strict minimum of lines 184 and 191-194: starting from
`memory_value = np.inf` and the current values of the function-scoped locals
`(first_bag, drone_num)` (modelled as an `Option`, `none` while unassigned),
each scanned cost strictly below the running minimum replaces it and records
`(j, l)`. -/
def strict_min_scan (st : Cost × Option (ℕ × ℕ))
    (l : List ((ℕ × ℕ × ℕ) × Cost)) : Cost × Option (ℕ × ℕ) :=
  l.foldl (fun s p => if p.2 < s.1 then (p.2, some (p.1.1, p.1.2.2)) else s) st

/-- The mutable state threaded through the loops of `dynamic_programming`:
the `optimal_cost` table, the `backtrace_memory` dict (as an association
list in insertion order) and the function-scoped locals
`(first_bag, drone_num)`. -/
structure DPState where
  optimal_cost : List (List Cost)
  backtrace_memory : List ((ℕ × ℕ) × (ℕ × ℕ))
  best : Option (ℕ × ℕ)
  deriving DecidableEq, Repr

/-- The body of the two outer loops at `(k, i)` (lines 183-199).
When the cost list is empty (`i = 0`) nothing happens.  Otherwise the cell
`optimal_cost[i][k]` is set to the minimum of the list, and if
`k == num_drones - 1` the pair `(first_bag, drone_num)` is stored in
`backtrace_memory[(i, k)]`; if those locals were never assigned the Python
code raises `UnboundLocalError`, modelled by `none`. -/
def dp_cell (de : DroneExtinguisher) (st : DPState) (k i : ℕ) : Option DPState :=
  if (dp_pairs de st.optimal_cost i k).isEmpty then some st
  else if k = de.num_drones - 1 then
    match (strict_min_scan (⊤, st.best) (dp_pairs de st.optimal_cost i k)).2 with
    | none => none
    | some pr =>
        some ⟨setCell st.optimal_cost i k (listMin (cell_costs de st.optimal_cost i k)),
              st.backtrace_memory ++ [((i, k), pr)], some pr⟩
  else some ⟨setCell st.optimal_cost i k (listMin (cell_costs de st.optimal_cost i k)),
             st.backtrace_memory,
             (strict_min_scan (⊤, st.best) (dp_pairs de st.optimal_cost i k)).2⟩

/-- The inner loop `for i in range(0, num_bags + 1)` of line 182, processing
rows `a, a+1, ..., a+n-1` in ascending order. -/
def dp_rows (de : DroneExtinguisher) (k : ℕ) : ℕ → ℕ → DPState → Option DPState
  | _, 0, st => some st
  | a, n + 1, st => (dp_cell de st k a).bind (dp_rows de k (a + 1) n)

/-- The outer loop `for k in range(0, num_drones)` of line 181, processing
columns `0, 1, ..., n-1` in ascending order. -/
def dp_cols (de : DroneExtinguisher) : ℕ → DPState → Option DPState
  | 0, st => some st
  | k + 1, st => (dp_cols de k st).bind (dp_rows de k 0 (de.num_bags + 1))

/-- The tables left behind by a completed run of `dynamic_programming`. -/
structure DPRun where
  de : DroneExtinguisher
  optimal_cost : List (List Cost)
  backtrace_memory : List ((ℕ × ℕ) × (ℕ × ℕ))
  deriving DecidableEq, Repr

/-- `optimal_cost` as created in `__init__` (line 44):
`np.zeros((num_bags + 1, num_drones))`. -/
def initState (de : DroneExtinguisher) : DPState :=
  ⟨List.replicate (de.num_bags + 1) (List.replicate de.num_drones 0), [], none⟩

/-- `dynamic_programming` (lines 146-202): substitute a missing usage table
by zeros, then run the nested loops.  `none` models the Python
`UnboundLocalError` described at `dp_cell`. -/
def dynamic_programming (de : DroneExtinguisher) : Option DPRun :=
  let de' := de.usage_filled
  (dp_cols de' de'.num_drones (initState de')).map
    (fun st => ⟨de', st.optimal_cost, st.backtrace_memory⟩)

/-- `lowest_cost` (lines 222-231): `optimal_cost[-1][-1]`. -/
def lowest_cost (run : DPRun) : Cost :=
  (run.optimal_cost.getLastD []).getLastD 0

/-- Python dict lookup for `backtrace_memory` (keys are inserted once each,
so the association-list lookup agrees with the dict). -/
def memLookup (key : ℕ × ℕ) : List ((ℕ × ℕ) × (ℕ × ℕ)) → Option (ℕ × ℕ)
  | [] => none
  | e :: rest => if e.1 = key then some e.2 else memLookup key rest

/-- The inner `while drone_idx > 0` loop of `backtrace_solution`
(lines 256-262), started at `drone_idx = num_drones - 1`: decrement
`drone_idx` until `temp < optimal_cost[bag_idx][drone_idx - 1]` breaks the
loop (or `drone_idx` reaches 0). -/
def drone_scan (run : DPRun) (bag_idx : ℕ) (temp : Cost) : ℕ → ℕ
  | 0 => 0
  | d + 1 => if temp < cell run.optimal_cost bag_idx d then d + 1
             else drone_scan run bag_idx temp d

/-- The outer `while bag_idx > 0` loop of `backtrace_solution`
(lines 253-270).  Each iteration prepends the chosen drone to `drone_list`,
prepends `bag_idx - 1` to `leftmost_indices` when
`optimal_cost[bag_idx - 1][-1] <= temp`, and continues with
`temp = optimal_cost[bag_idx - 1][-1]`. -/
def backtrace_aux (run : DPRun) : ℕ → Cost → List ℕ × List ℕ
  | 0, _ => ([], [])
  | b + 1, temp =>
      let lastCol := run.de.num_drones - 1
      let d := drone_scan run (b + 1) temp lastCol
      let rest := backtrace_aux run b (cell run.optimal_cost b lastCol)
      ((if cell run.optimal_cost b lastCol ≤ temp then rest.1 ++ [b] else rest.1),
        rest.2 ++ [d])

/-- `backtrace_solution` (lines 234-282): starts from
`temp = lowest_cost()` and `bag_idx = num_bags`. -/
def backtrace_solution (run : DPRun) : List ℕ × List ℕ :=
  backtrace_aux run run.de.num_bags (lowest_cost run)

/-- Convenience accessor for witnesses: the run of a completed
`dynamic_programming` (only used where the run is proved to exist). -/
def dpRunOf (de : DroneExtinguisher) : DPRun :=
  (dynamic_programming de).getD ⟨de, [], []⟩

/-- The `optimal_cost` table is an `R × C` matrix. -/
def Dims (tbl : List (List Cost)) (R C : ℕ) : Prop :=
  tbl.length = R ∧ ∀ row ∈ tbl, row.length = C

/-! ### Concrete instances used by witnesses and counterexamples -/

def deSmall : DroneExtinguisher :=
  (DroneExtinguisher.init (0, 0) [1] [(0, 0)] 0 2
    (some [[0]])).fill_travel_costs_in_liters

/-- C7 counterexample: an instance with mismatched `bags`/`bag_locations`
lengths, zero drones (a usage table with an empty first row) and a negative
daily budget.  `__init__` accepts it silently and stores the malformed
values; no validation error of any kind is raised. -/
def deMalformed : DroneExtinguisher :=
  DroneExtinguisher.init (0, 0) [1, 2] [(0, 0)] 1 (-5) (some [[]])

/-- The instance of the repository's test
`test_dynamic_programming_multiple_drones_mixed_order`: five bags at
distance 5 (so round-trip travel cost `⌈2 · 5 · 0.1⌉ = 1` liter per bag),
budget 20, three drones. -/
def deScenario2 : DroneExtinguisher :=
  (DroneExtinguisher.init (0, 0) [3, 9, 2, 3, 19]
    [(3, 4), (3, 4), (3, 4), (3, 4), (3, 4)] (1 / 10) 20
    (some [[1, 1, 0], [1, 1, 0], [1, 1, 0], [1, 1, 0], [0, 1, 1]])).fill_travel_costs_in_liters

/-- A valid two-bag, two-drone instance on which the reverse-scan
reconstruction of `backtrace_solution` misbehaves: drone 1 is strictly
cheaper for bag 0 alone, but the optimal two-bag plan is a single day flown
by drone 0 (cost 10 = idle 0 + usage 10). -/
def deBacktrace : DroneExtinguisher :=
  (DroneExtinguisher.init (0, 0) [1, 1] [(0, 0), (0, 0)] 0 2
    (some [[10, 0], [0, 100]])).fill_travel_costs_in_liters

/-- A one-bag, two-drone instance where every scanned triple of the final
state `(b, k) = (1, 1)` ties at cost 0. -/
def deTie : DroneExtinguisher :=
  (DroneExtinguisher.init (0, 0) [1] [(0, 0)] 0 2
    (some [[0, 0]])).fill_travel_costs_in_liters

/-- The instance of the repository's own `__main__` block, with `usage_cost`
omitted, shrunk to one bag (used as a witness instance for the
missing-usage-table claims). -/
def deNoUsage : DroneExtinguisher :=
  (DroneExtinguisher.init (0, 0) [1] [(0, 0)] 0 2 none).fill_travel_costs_in_liters

/-- An instance whose only bag (25 liters, no travel) exceeds the daily
budget of 20: the batch `{0}` is infeasible. -/
def deOverweightFirst : DroneExtinguisher :=
  (DroneExtinguisher.init (0, 0) [25] [(0, 0)] 0 20
    (some [[0]])).fill_travel_costs_in_liters

/-- A feasible first bag followed by an overweight bag (25 + 0 > 20):
the run completes and the overall cost is infeasible. -/
def deOverweightLater : DroneExtinguisher :=
  (DroneExtinguisher.init (0, 0) [1, 25] [(0, 0), (0, 0)] 0 20
    (some [[0], [0]])).fill_travel_costs_in_liters

/-! ### Basic facts about `listMin` (Python's `min` on a list) -/

theorem foldl_min_le_init {xs : List Cost} : ∀ {a : Cost}, xs.foldl min a ≤ a := by
  induction xs with
  | nil => exact le_refl _
  | cons x xs ih => exact fun {a} => le_trans ih (min_le_left a x)

theorem foldl_min_le_mem {xs : List Cost} {x : Cost} (hx : x ∈ xs) :
    ∀ {a : Cost}, xs.foldl min a ≤ x := by
  induction xs with
  | nil => cases hx
  | cons y ys ih =>
    intro a
    rcases List.mem_cons.mp hx with h | h
    · subst h
      exact le_trans (@foldl_min_le_init ys (min a x)) (min_le_right a x)
    · exact ih h

theorem foldl_min_mem_or {xs : List Cost} : ∀ {a : Cost},
    xs.foldl min a = a ∨ xs.foldl min a ∈ xs := by
  induction xs with
  | nil => exact fun {a} => Or.inl rfl
  | cons y ys ih =>
    intro a
    rcases @ih (min a y) with h | h
    · rcases min_cases a y with ⟨h', _⟩ | ⟨h', _⟩
      · left
        show List.foldl min (min a y) ys = a
        rw [h, h']
      · right
        show List.foldl min (min a y) ys ∈ y :: ys
        rw [h, h']
        exact List.mem_cons_self y ys
    · right
      show List.foldl min (min a y) ys ∈ y :: ys
      exact List.mem_cons_of_mem y h

theorem listMin_le {l : List Cost} {x : Cost} (hx : x ∈ l) : listMin l ≤ x := by
  cases l with
  | nil => cases hx
  | cons y ys =>
    rcases List.mem_cons.mp hx with h | h
    · subst h; exact foldl_min_le_init
    · exact foldl_min_le_mem h

theorem listMin_mem {l : List Cost} (h : l ≠ []) : listMin l ∈ l := by
  cases l with
  | nil => cases h rfl
  | cons y ys =>
    rcases @foldl_min_mem_or ys y with h' | h'
    · simp only [listMin, h']; exact List.mem_cons_self y ys
    · exact List.mem_cons_of_mem y h'

theorem listMin_eq_top {l : List Cost} (h : ∀ x ∈ l, x = ⊤) : listMin l = ⊤ := by
  cases l with
  | nil => rfl
  | cons y ys =>
    have := @listMin_mem (y :: ys) (by simp)
    exact h _ this

/-! ### Table dimensions and cell updates -/

theorem dims_initState (de : DroneExtinguisher) :
    Dims (initState de).optimal_cost (de.num_bags + 1) de.num_drones := by
  refine ⟨by simp [initState], ?_⟩
  intro row hrow
  have hrow' : row ∈ List.replicate (de.num_bags + 1) (List.replicate de.num_drones (0 : Cost)) :=
    hrow
  rw [List.eq_of_mem_replicate hrow']
  simp

theorem dims_row_len {tbl : List (List Cost)} {R C : ℕ} (h : Dims tbl R C)
    {i : ℕ} (hi : i < R) : (tbl.getD i []).length = C := by
  have hlen : i < tbl.length := by rw [h.1]; exact hi
  simp only [List.getD_eq_getElem?_getD, List.getElem?_eq_getElem hlen, Option.getD_some]
  exact h.2 _ (List.getElem_mem hlen)

theorem dims_setCell {tbl : List (List Cost)} {R C : ℕ} (h : Dims tbl R C)
    (i k : ℕ) (v : Cost) : Dims (setCell tbl i k v) R C := by
  rcases Nat.lt_or_ge i tbl.length with hi | hi
  · refine ⟨by simp [setCell, h.1], ?_⟩
    intro row hrow
    rcases List.mem_or_eq_of_mem_set hrow with h' | h'
    · exact h.2 _ h'
    · subst h'
      simp only [List.length_set]
      exact dims_row_len h (by rw [← h.1]; exact hi)
  · unfold setCell
    rw [List.set_eq_of_length_le hi]
    exact h

theorem cell_setCell_ne {tbl : List (List Cost)} {i k j h : ℕ} (v : Cost)
    (hne : j ≠ i ∨ h ≠ k) : cell (setCell tbl i k v) j h = cell tbl j h := by
  unfold cell setCell
  simp only [List.getD_eq_getElem?_getD]
  rcases eq_or_ne j i with rfl | hji
  · rcases hne with hne | hne
    · exact absurd rfl hne
    · rcases Nat.lt_or_ge j tbl.length with hj | hj
      · rw [List.getElem?_set_eq_of_lt _ hj, Option.getD_some,
          List.getElem?_set_ne (fun hh => hne hh.symm)]
      · rw [List.set_eq_of_length_le hj]
  · rw [List.getElem?_set_ne (fun hh => hji hh.symm)]

theorem cell_setCell_self {tbl : List (List Cost)} {R C : ℕ} (hd : Dims tbl R C)
    {i k : ℕ} (hi : i < R) (hk : k < C) (v : Cost) :
    cell (setCell tbl i k v) i k = v := by
  have hil : i < tbl.length := by rw [hd.1]; exact hi
  have hrow : (tbl.getD i []).length = C := dims_row_len hd hi
  rw [List.getD_eq_getElem?_getD] at hrow
  unfold cell setCell
  simp only [List.getD_eq_getElem?_getD]
  rw [List.getElem?_set_eq_of_lt _ hil, Option.getD_some,
    List.getElem?_set_eq_of_lt _ (lt_of_lt_of_eq hk hrow.symm), Option.getD_some]

theorem cell_initState (de : DroneExtinguisher) (i k : ℕ) :
    cell (initState de).optimal_cost i k = 0 := by
  unfold cell initState
  simp only [List.getD_eq_getElem?_getD, List.getElem?_replicate]
  rcases Nat.lt_or_ge i (de.num_bags + 1) with hi | hi
  · simp only [if_pos hi, Option.getD_some]
    rcases Nat.lt_or_ge k de.num_drones with hk | hk
    · simp [hk]
    · simp [Nat.not_lt_of_ge hk]
  · simp [Nat.not_lt_of_ge hi]

/-! ### The scan order of the three inner loops -/

theorem mem_scan_triples {i k : ℕ} {t : ℕ × ℕ × ℕ} :
    t ∈ scan_triples i k ↔ t.1 < i ∧ t.2.1 ≤ t.2.2 ∧ t.2.2 ≤ k := by
  obtain ⟨j, h, l⟩ := t
  simp only [scan_triples, List.mem_flatMap, List.mem_map, List.mem_range, List.mem_range',
    Prod.mk.injEq]
  constructor
  · rintro ⟨j', hj', h', hh', l', ⟨il, hil, rfl⟩, rfl, rfl, rfl⟩
    refine ⟨hj', by omega, by omega⟩
  · rintro ⟨hj, hhl, hlk⟩
    exact ⟨j, hj, h, by omega, l, ⟨l - h, by omega, by omega⟩, rfl, rfl, rfl⟩

theorem scan_triples_zero (k : ℕ) : scan_triples 0 k = [] := rfl

theorem scan_triples_ne_nil {i k : ℕ} (hi : 1 ≤ i) : scan_triples i k ≠ [] := by
  intro hnil
  have hmem : (0, 0, 0) ∈ scan_triples i k :=
    mem_scan_triples.mpr ⟨hi, Nat.le_refl 0, Nat.zero_le k⟩
  rw [hnil] at hmem
  cases hmem

/-! ### Congruence of the scanned transition costs

The transition cost of `(j, h, l)` at row `i` only reads table cells `(j, h)`
with `j < i` and `h ≤ k`: two tables agreeing there yield the same scanned
costs. -/

theorem transition_cost_congr {de : DroneExtinguisher} {t1 t2 : List (List Cost)} {i k : ℕ}
    (hread : ∀ j h, j < i → h ≤ k → cell t1 j h = cell t2 j h)
    {t : ℕ × ℕ × ℕ} (ht : t ∈ scan_triples i k) :
    transition_cost de t1 i t = transition_cost de t2 i t := by
  obtain ⟨hj, hhl, hlk⟩ := mem_scan_triples.mp ht
  unfold transition_cost
  rw [hread t.1 t.2.1 hj (le_trans hhl hlk)]

theorem dp_pairs_congr {de : DroneExtinguisher} {t1 t2 : List (List Cost)} {i k : ℕ}
    (hread : ∀ j h, j < i → h ≤ k → cell t1 j h = cell t2 j h) :
    dp_pairs de t1 i k = dp_pairs de t2 i k := by
  unfold dp_pairs
  exact List.map_congr_left (fun t ht => by rw [transition_cost_congr hread ht])

theorem cell_costs_congr {de : DroneExtinguisher} {t1 t2 : List (List Cost)} {i k : ℕ}
    (hread : ∀ j h, j < i → h ≤ k → cell t1 j h = cell t2 j h) :
    cell_costs de t1 i k = cell_costs de t2 i k := by
  unfold cell_costs
  rw [dp_pairs_congr hread]

/-! ### What one step of the loop body does -/

theorem dp_cell_zero (de : DroneExtinguisher) (st : DPState) (k : ℕ) :
    dp_cell de st k 0 = some st := rfl

theorem dp_cell_spec {de : DroneExtinguisher} {st st' : DPState} {k i : ℕ}
    (hi : 1 ≤ i) (h : dp_cell de st k i = some st') :
    st'.optimal_cost = setCell st.optimal_cost i k (listMin (cell_costs de st.optimal_cost i k))
    ∧ (k ≠ de.num_drones - 1 → st'.backtrace_memory = st.backtrace_memory)
    ∧ (k = de.num_drones - 1 → ∃ pr,
        st'.backtrace_memory = st.backtrace_memory ++ [((i, k), pr)]
        ∧ (strict_min_scan (⊤, st.best) (dp_pairs de st.optimal_cost i k)).2 = some pr) := by
  have hne : ((dp_pairs de st.optimal_cost i k).isEmpty = false) := by
    rw [List.isEmpty_eq_false]
    simp only [dp_pairs, ne_eq, List.map_eq_nil_iff]
    exact scan_triples_ne_nil hi
  unfold dp_cell at h
  rw [hne] at h
  simp only [Bool.false_eq_true, if_false] at h
  by_cases hk : k = de.num_drones - 1
  · rw [if_pos hk] at h
    cases hscan : (strict_min_scan (⊤, st.best) (dp_pairs de st.optimal_cost i k)).2 with
    | none => rw [hscan] at h; cases h
    | some pr =>
        rw [hscan] at h
        injection h with h
        subst h
        exact ⟨rfl, fun hk' => absurd hk hk', fun _ => ⟨pr, rfl, rfl⟩⟩
  · rw [if_neg hk] at h
    injection h with h
    subst h
    exact ⟨rfl, fun _ => rfl, fun hk' => absurd hk' hk⟩

/-! ### The inner loop over rows

Each row `i ≥ 1` of column `k` is written exactly once, with the minimum of
the costs scanned from cells that are never modified afterwards; hence the
final table satisfies the recurrence stated against itself. -/

theorem dp_rows_spec {de : DroneExtinguisher} {k : ℕ} (hk : k < de.num_drones) :
    ∀ n a (st st' : DPState), a + n ≤ de.num_bags + 1 →
      Dims st.optimal_cost (de.num_bags + 1) de.num_drones →
      dp_rows de k a n st = some st' →
      Dims st'.optimal_cost (de.num_bags + 1) de.num_drones
      ∧ (∀ j h, h ≠ k ∨ j < a ∨ a + n ≤ j ∨ j = 0 →
          cell st'.optimal_cost j h = cell st.optimal_cost j h)
      ∧ (∀ b, 1 ≤ b → a ≤ b → b < a + n →
          cell st'.optimal_cost b k = listMin (cell_costs de st'.optimal_cost b k))
      ∧ (k ≠ de.num_drones - 1 → st'.backtrace_memory = st.backtrace_memory)
      ∧ (k = de.num_drones - 1 → ∃ L,
            st'.backtrace_memory = st.backtrace_memory ++ L
            ∧ (∀ e ∈ L, 1 ≤ e.1.1 ∧ a ≤ e.1.1 ∧ e.1.1 < a + n ∧ e.1.2 = k
                ∧ ∃ o, (strict_min_scan (⊤, o)
                    (dp_pairs de st'.optimal_cost e.1.1 k)).2 = some e.2)
            ∧ (∀ b, 1 ≤ b → a ≤ b → b < a + n → ∃ pr, ((b, k), pr) ∈ L)) := by
  intro n
  induction n with
  | zero =>
      intro a st st' hle hd h
      have h' : some st = some st' := h
      injection h' with h'
      subst h'
      refine ⟨hd, fun j h _ => rfl, fun b _ hab hb => absurd hb (by omega), fun _ => rfl, ?_⟩
      intro _
      exact ⟨[], by simp, fun e he => absurd he (List.not_mem_nil e),
        fun b _ hab hb => absurd hb (by omega)⟩
  | succ n ih =>
      intro a st st' hle hd h
      have hb : (dp_cell de st k a).bind (dp_rows de k (a + 1) n) = some st' := h
      obtain ⟨st₁, h₁, h₂⟩ := Option.bind_eq_some.mp hb
      rcases Nat.eq_zero_or_pos a with rfl | ha
      · -- a = 0: the loop body is a no-op (`temp_optimal_cost_list` is empty)
        rw [dp_cell_zero] at h₁
        injection h₁ with h₁
        subst h₁
        obtain ⟨hd', hU, hW, hM, hM'⟩ := ih 1 st st' (by omega) hd h₂
        refine ⟨hd', ?_, ?_, hM, ?_⟩
        · intro j hcol hcond
          rcases hcond with hc | hc | hc | hc
          · exact hU j hcol (Or.inl hc)
          · omega
          · exact hU j hcol (Or.inr (Or.inr (Or.inl (by omega))))
          · exact hU j hcol (Or.inr (Or.inr (Or.inr hc)))
        · intro b hb1 _ hb2
          exact hW b hb1 (by omega) (by omega)
        · intro hkD
          obtain ⟨L, hL1, hL2, hL3⟩ := hM' hkD
          refine ⟨L, hL1, ?_, ?_⟩
          · intro e he
            obtain ⟨e1, e2, e3, e4, e5⟩ := hL2 e he
            exact ⟨e1, by omega, by omega, e4, e5⟩
          · intro b hb1 _ hb2
            exact hL3 b hb1 (by omega) (by omega)
      · -- 1 ≤ a: the loop body writes cell (a, k) and possibly records
        have ha' : a < de.num_bags + 1 := by omega
        obtain ⟨hc1, hc2, hc3⟩ := dp_cell_spec ha h₁
        have hd₁ : Dims st₁.optimal_cost (de.num_bags + 1) de.num_drones := by
          rw [hc1]; exact dims_setCell hd a k _
        obtain ⟨hd', hU, hW, hM, hM'⟩ := ih (a + 1) st₁ st' (by omega) hd₁ h₂
        have hstep : ∀ j h, j ≠ a ∨ h ≠ k →
            cell st₁.optimal_cost j h = cell st.optimal_cost j h := by
          intro j h hcond
          rw [hc1]
          exact cell_setCell_ne _ hcond
        have hreads : ∀ j h, j < a → h ≤ k →
            cell st'.optimal_cost j h = cell st.optimal_cost j h := by
          intro j h hj hh
          rw [hU j h (Or.inr (Or.inl (by omega))), hstep j h (Or.inl (by omega))]
        refine ⟨hd', ?_, ?_, ?_, ?_⟩
        · intro j h hcond
          have hne : j ≠ a ∨ h ≠ k := by
            rcases hcond with hc | hc | hc | hc
            · exact Or.inr hc
            · exact Or.inl (by omega)
            · exact Or.inl (by omega)
            · exact Or.inl (by omega)
          have hcond' : h ≠ k ∨ j < a + 1 ∨ (a + 1) + n ≤ j ∨ j = 0 := by
            rcases hcond with hc | hc | hc | hc
            · exact Or.inl hc
            · exact Or.inr (Or.inl (by omega))
            · exact Or.inr (Or.inr (Or.inl (by omega)))
            · exact Or.inr (Or.inr (Or.inr hc))
          rw [hU j h hcond', hstep j h hne]
        · intro b hb1 hab hb2
          rcases Nat.eq_or_lt_of_le hab with heqab | hlt
          · rw [← heqab]
            have heq : cell st'.optimal_cost a k = cell st₁.optimal_cost a k :=
              hU a k (Or.inr (Or.inl (by omega)))
            have hcosts : cell_costs de st.optimal_cost a k
                = cell_costs de st'.optimal_cost a k :=
              cell_costs_congr (fun j h hj hh => (hreads j h hj hh).symm)
            rw [heq, hc1, cell_setCell_self hd ha' hk, hcosts]
          · exact hW b hb1 (by omega) (by omega)
        · intro hkD
          rw [hM hkD, hc2 hkD]
        · intro hkD
          obtain ⟨pr, hpr1, hpr2⟩ := hc3 hkD
          obtain ⟨L, hL1, hL2, hL3⟩ := hM' hkD
          refine ⟨((a, k), pr) :: L, ?_, ?_, ?_⟩
          · rw [hL1, hpr1, List.append_assoc]
            rfl
          · intro e he
            rcases List.mem_cons.mp he with rfl | he
            · refine ⟨ha, le_refl a, Nat.lt_add_of_pos_right (Nat.succ_pos n), rfl,
                st.best, ?_⟩
              have hpairs : dp_pairs de st.optimal_cost a k
                  = dp_pairs de st'.optimal_cost a k :=
                dp_pairs_congr (fun j h hj hh => (hreads j h hj hh).symm)
              rw [← hpairs]
              exact hpr2
            · obtain ⟨e1, e2, e3, e4, e5⟩ := hL2 e he
              exact ⟨e1, by omega, by omega, e4, e5⟩
          · intro b hb1 hab hb2
            rcases Nat.eq_or_lt_of_le hab with rfl | hlt
            · exact ⟨pr, List.mem_cons_self _ _⟩
            · obtain ⟨pr', hpr'⟩ := hL3 b hb1 (by omega) (by omega)
              exact ⟨pr', List.mem_cons_of_mem _ hpr'⟩

/-! ### The outer loop over drone columns -/

theorem dp_cols_spec {de : DroneExtinguisher} :
    ∀ n (st st' : DPState), n ≤ de.num_drones →
      Dims st.optimal_cost (de.num_bags + 1) de.num_drones →
      dp_cols de n st = some st' →
      Dims st'.optimal_cost (de.num_bags + 1) de.num_drones
      ∧ (∀ j h, n ≤ h ∨ j = 0 → cell st'.optimal_cost j h = cell st.optimal_cost j h)
      ∧ (∀ k, k < n → ∀ b, 1 ≤ b → b ≤ de.num_bags →
          cell st'.optimal_cost b k = listMin (cell_costs de st'.optimal_cost b k))
      ∧ (n < de.num_drones ∨ de.num_drones = 0 → st'.backtrace_memory = st.backtrace_memory)
      ∧ (n = de.num_drones → 1 ≤ de.num_drones → ∃ L,
            st'.backtrace_memory = st.backtrace_memory ++ L
            ∧ (∀ e ∈ L, 1 ≤ e.1.1 ∧ e.1.1 ≤ de.num_bags ∧ e.1.2 = de.num_drones - 1
                ∧ ∃ o, (strict_min_scan (⊤, o)
                    (dp_pairs de st'.optimal_cost e.1.1 (de.num_drones - 1))).2 = some e.2)
            ∧ (∀ b, 1 ≤ b → b ≤ de.num_bags →
                ∃ pr, ((b, de.num_drones - 1), pr) ∈ L)) := by
  intro n
  induction n with
  | zero =>
      intro st st' hn hd h
      have h' : some st = some st' := h
      injection h' with h'
      subst h'
      refine ⟨hd, fun j h _ => rfl, fun k hk => absurd hk (by omega), fun _ => rfl, ?_⟩
      intro h0 h1
      exfalso
      omega
  | succ n ih =>
      intro st st' hn hd h
      have hbind : (dp_cols de n st).bind (dp_rows de n 0 (de.num_bags + 1)) = some st' := h
      obtain ⟨s₁, h₁, h₂⟩ := Option.bind_eq_some.mp hbind
      have hnD : n < de.num_drones := by omega
      obtain ⟨hd₁, hU₁, hW₁, hM₁, hM₁'⟩ := ih st s₁ (by omega) hd h₁
      obtain ⟨hd₂, hU₂, hW₂, hM₂, hM₂'⟩ :=
        dp_rows_spec hnD (de.num_bags + 1) 0 s₁ st' (by omega) hd₁ h₂
      refine ⟨hd₂, ?_, ?_, ?_, ?_⟩
      · intro j h hcond
        have hstep : cell st'.optimal_cost j h = cell s₁.optimal_cost j h := by
          rcases hcond with hc | hc
          · exact hU₂ j h (Or.inl (by omega))
          · exact hU₂ j h (Or.inr (Or.inr (Or.inr hc)))
        rw [hstep]
        rcases hcond with hc | hc
        · exact hU₁ j h (Or.inl (by omega))
        · exact hU₁ j h (Or.inr hc)
      · intro k hk b hb1 hb2
        rcases Nat.lt_or_ge k n with hkn | hkn
        · have hcell : cell st'.optimal_cost b k = cell s₁.optimal_cost b k :=
            hU₂ b k (Or.inl (by omega))
          have hcosts : cell_costs de s₁.optimal_cost b k
              = cell_costs de st'.optimal_cost b k :=
            cell_costs_congr (fun j h hj hh =>
              (hU₂ j h (Or.inl (by omega))).symm)
          rw [hcell, hW₁ k hkn b hb1 hb2, hcosts]
        · have hkeq : k = n := by omega
          subst hkeq
          exact hW₂ b hb1 (Nat.zero_le b) (by omega)
      · intro hcond
        rcases hcond with hc | hc
        · rw [hM₂ (by omega), hM₁ (Or.inl (by omega))]
        · exfalso
          omega
      · intro hndD hD
        have hnd : n = de.num_drones - 1 := by omega
        obtain ⟨L, hL1, hL2, hL3⟩ := hM₂' hnd
        have hmem₁ : s₁.backtrace_memory = st.backtrace_memory :=
          hM₁ (Or.inl (by omega))
        refine ⟨L, by rw [hL1, hmem₁], ?_, ?_⟩
        · intro e he
          obtain ⟨e1, e2, e3, e4, e5⟩ := hL2 e he
          rw [← hnd]
          exact ⟨e1, by omega, e4, e5⟩
        · intro b hb1 hb2
          rw [← hnd]
          exact hL3 b hb1 (Nat.zero_le b) (by omega)

/-! ### `memLookup` behaves like the Python dict lookup -/

theorem memLookup_mem {key : ℕ × ℕ} {l : List ((ℕ × ℕ) × (ℕ × ℕ))} {v : ℕ × ℕ}
    (h : memLookup key l = some v) : (key, v) ∈ l := by
  induction l with
  | nil => cases h
  | cons e rest ih =>
      unfold memLookup at h
      by_cases he : e.1 = key
      · rw [if_pos he] at h
        injection h with h
        apply List.mem_cons.mpr
        left
        rw [← he, ← h]
      · rw [if_neg he] at h
        exact List.mem_cons_of_mem _ (ih h)

theorem memLookup_isSome_of_mem {key v : ℕ × ℕ} {l : List ((ℕ × ℕ) × (ℕ × ℕ))}
    (h : (key, v) ∈ l) : ∃ v', memLookup key l = some v' := by
  induction l with
  | nil => cases h
  | cons e rest ih =>
      unfold memLookup
      by_cases he : e.1 = key
      · exact ⟨e.2, by rw [if_pos he]⟩
      · rcases List.mem_cons.mp h with heq | hmem
        · exact absurd (by rw [← heq]) he
        · rw [if_neg he]
          exact ih hmem

/-! ### `usage_filled` only changes the `usage_cost` field -/

theorem usage_filled_fields (de : DroneExtinguisher) :
    de.usage_filled.num_bags = de.num_bags
    ∧ de.usage_filled.num_drones = de.num_drones
    ∧ de.usage_filled.bags = de.bags
    ∧ de.usage_filled.travel_costs_in_liters = de.travel_costs_in_liters
    ∧ de.usage_filled.liter_budget_per_day = de.liter_budget_per_day := by
  obtain ⟨f, bags, locs, c, B, u, nb, nd, tr⟩ := de
  cases u <;> simp [DroneExtinguisher.usage_filled]

/-! ### Master characterization of a completed run -/

/-- After `dynamic_programming de = some run`: the table has dimensions
`(N+1) × K`, row `0` is all zeros, every cell `(b, k)` with `1 ≤ b ≤ N` and
`k < K` equals the Python `min` of its scanned transition costs — evaluated
against the final table, since every cell read by the scan has already
received its final value — and for every `1 ≤ b ≤ N` the memory holds the
pair left in `(first_bag, drone_num)` by the strict-improvement scan of row
`b` at column `K - 1`. -/
theorem dp_run_spec {de : DroneExtinguisher} {run : DPRun}
    (h : dynamic_programming de = some run) :
    run.de = de.usage_filled
    ∧ Dims run.optimal_cost (run.de.num_bags + 1) run.de.num_drones
    ∧ (∀ k, cell run.optimal_cost 0 k = 0)
    ∧ (∀ b k, 1 ≤ b → b ≤ run.de.num_bags → k < run.de.num_drones →
        cell run.optimal_cost b k = listMin (cell_costs run.de run.optimal_cost b k))
    ∧ (1 ≤ run.de.num_drones → ∀ b, 1 ≤ b → b ≤ run.de.num_bags →
        ∃ pr, memLookup (b, run.de.num_drones - 1) run.backtrace_memory = some pr
          ∧ ∃ o, (strict_min_scan (⊤, o)
              (dp_pairs run.de run.optimal_cost b (run.de.num_drones - 1))).2 = some pr) := by
  unfold dynamic_programming at h
  obtain ⟨st', hcols, hrun⟩ := Option.map_eq_some'.mp h
  subst hrun
  obtain ⟨hd, hU, hW, _, hM⟩ :=
    dp_cols_spec de.usage_filled.num_drones (initState de.usage_filled) st'
      (le_refl _) (dims_initState _) hcols
  refine ⟨rfl, hd, ?_, ?_, ?_⟩
  · intro k
    rw [hU 0 k (Or.inr rfl)]
    exact cell_initState _ 0 k
  · intro b k hb1 hb2 hk
    exact hW k hk b hb1 hb2
  · intro hD b hb1 hb2
    obtain ⟨L, hL1, hL2, hL3⟩ := hM rfl hD
    have hLmem : st'.backtrace_memory = L := by simpa [initState] using hL1
    obtain ⟨pr, hpr⟩ := hL3 b hb1 hb2
    obtain ⟨pr', hpr'⟩ := memLookup_isSome_of_mem (hLmem ▸ hpr)
    refine ⟨pr', hpr', ?_⟩
    have hmem' : ((b, de.usage_filled.num_drones - 1), pr') ∈ L :=
      hLmem ▸ memLookup_mem hpr'
    obtain ⟨_, _, _, hscan⟩ := hL2 _ hmem'
    exact hscan

/-! ### `lowest_cost` reads the bottom-right cell -/

theorem getLastD_eq_getD {α : Type} (l : List α) (d : α) :
    l.getLastD d = l.getD (l.length - 1) d := by
  rw [List.getLastD_eq_getLast?, List.getLast?_eq_getElem?, List.getD_eq_getElem?_getD]

theorem lowest_cost_eq_cell {run : DPRun} {R C : ℕ}
    (hd : Dims run.optimal_cost (R + 1) C) (hC : 1 ≤ C) :
    lowest_cost run = cell run.optimal_cost R (C - 1) := by
  unfold lowest_cost cell
  rw [getLastD_eq_getD run.optimal_cost [], hd.1, Nat.add_sub_cancel,
    getLastD_eq_getD, dims_row_len hd (Nat.lt_succ_self R)]

/-! ### Membership in the scanned cost list -/

theorem mem_cell_costs {de : DroneExtinguisher} {tbl : List (List Cost)} {i k : ℕ}
    {x : Cost} :
    x ∈ cell_costs de tbl i k
      ↔ ∃ t, t ∈ scan_triples i k ∧ transition_cost de tbl i t = x := by
  simp [cell_costs, dp_pairs]

theorem cell_costs_ne_nil {de : DroneExtinguisher} {tbl : List (List Cost)} {i k : ℕ}
    (hi : 1 ≤ i) : cell_costs de tbl i k ≠ [] := by
  simp only [cell_costs, dp_pairs, ne_eq, List.map_eq_nil_iff]
  exact scan_triples_ne_nil hi

/-! ### Idle time as a subtracted sum -/

theorem foldl_sub_eq (f g : ℕ → ℤ) : ∀ (l : List ℕ) (B : ℤ),
    l.foldl (fun acc t => acc - f t - g t) B = B - (l.map (fun t => f t + g t)).sum := by
  intro l
  induction l with
  | nil => intro B; simp
  | cons x xs ih =>
      intro B
      rw [List.foldl_cons, ih, List.map_cons, List.sum_cons]
      ring

theorem idle_time_eq_sub_sum (de : DroneExtinguisher) (i j : ℕ) :
    de.compute_sequence_idle_time_in_liters i j
      = de.liter_budget_per_day
        - ((List.range' i (j + 1 - i)).map
            (fun t => de.travel_costs_in_liters.getD t 0 + de.bags.getD t 0)).sum := by
  unfold DroneExtinguisher.compute_sequence_idle_time_in_liters
  exact foldl_sub_eq _ _ _ _

/-- A batch containing a bag whose weight (content plus travel) exceeds the
daily budget has negative idle time, hence `⊤` idle cost. -/
theorem idle_cost_top_of_overweight {de : DroneExtinguisher} {m i j : ℕ}
    (him : i ≤ m) (hmj : m ≤ j)
    (hnn : ∀ t, i ≤ t → t ≤ j →
      0 ≤ de.travel_costs_in_liters.getD t 0 + de.bags.getD t 0)
    (hover : de.liter_budget_per_day
      < de.travel_costs_in_liters.getD m 0 + de.bags.getD m 0) :
    de.idle_cost i j = ⊤ := by
  have hmem : m ∈ List.range' i (j + 1 - i) := by
    rw [List.mem_range']
    exact ⟨m - i, by omega, by omega⟩
  have hsum : de.travel_costs_in_liters.getD m 0 + de.bags.getD m 0
      ≤ ((List.range' i (j + 1 - i)).map
          (fun t => de.travel_costs_in_liters.getD t 0 + de.bags.getD t 0)).sum := by
    apply List.single_le_sum
    · intro x hx
      obtain ⟨t, ht, rfl⟩ := List.mem_map.mp hx
      obtain ⟨dt, hdt, hteq⟩ := List.mem_range'.mp ht
      exact hnn t (by omega) (by omega)
    · exact List.mem_map.mpr ⟨m, hmem, rfl⟩
  have hneg : de.compute_sequence_idle_time_in_liters i j < 0 := by
    rw [idle_time_eq_sub_sum]
    omega
  unfold DroneExtinguisher.idle_cost DroneExtinguisher.compute_idle_cost
  rw [if_pos hneg]

/-! ### The strict-improvement scan records the first minimizer -/

theorem strict_min_scan_id {l : List ((ℕ × ℕ × ℕ) × Cost)} :
    ∀ {v : Cost} {b₀ : Option (ℕ × ℕ)}, (∀ p ∈ l, ¬ p.2 < v) →
      strict_min_scan (v, b₀) l = (v, b₀) := by
  induction l with
  | nil => intro v b₀ _; rfl
  | cons p ps ih =>
      intro v b₀ hall
      have hstep : strict_min_scan (v, b₀) (p :: ps)
          = strict_min_scan
              (if p.2 < v then (p.2, some (p.1.1, p.1.2.2)) else (v, b₀)) ps := rfl
      rw [hstep, if_neg (hall p (List.mem_cons_self p ps))]
      exact ih (fun q hq => hall q (List.mem_cons_of_mem p hq))

theorem strict_min_scan_first {l : List ((ℕ × ℕ × ℕ) × Cost)} :
    ∀ {v : Cost} {b₀ : Option (ℕ × ℕ)},
      (∃ p ∈ l, p.2 < v) →
      ∃ pre x post, l = pre ++ x :: post
        ∧ x.2 < v
        ∧ (∀ y ∈ l, x.2 ≤ y.2)
        ∧ (∀ y ∈ pre, x.2 < y.2)
        ∧ (strict_min_scan (v, b₀) l).2 = some (x.1.1, x.1.2.2) := by
  induction l with
  | nil => rintro v b₀ ⟨p, hp, _⟩; cases hp
  | cons p ps ih =>
      intro v b₀ hex
      have hstep : strict_min_scan (v, b₀) (p :: ps)
          = strict_min_scan
              (if p.2 < v then (p.2, some (p.1.1, p.1.2.2)) else (v, b₀)) ps := rfl
      by_cases hp : p.2 < v
      · by_cases hex' : ∃ q ∈ ps, q.2 < p.2
        · obtain ⟨pre, x, post, heq, hxv, hmin, hpre, hres⟩ :=
            @ih p.2 (some (p.1.1, p.1.2.2)) hex'
          refine ⟨p :: pre, x, post, by rw [heq]; rfl, lt_trans hxv hp, ?_, ?_, ?_⟩
          · intro y hy
            rcases List.mem_cons.mp hy with rfl | hy
            · exact le_of_lt hxv
            · exact hmin y hy
          · intro y hy
            rcases List.mem_cons.mp hy with rfl | hy
            · exact hxv
            · exact hpre y hy
          · rw [hstep, if_pos hp]
            exact hres
        · push_neg at hex'
          refine ⟨[], p, ps, rfl, hp, ?_, fun y hy => absurd hy (List.not_mem_nil y), ?_⟩
          · intro y hy
            rcases List.mem_cons.mp hy with rfl | hy
            · exact le_refl _
            · exact hex' y hy
          · rw [hstep, if_pos hp, strict_min_scan_id (fun q hq => not_lt.mpr (hex' q hq))]
      · have hex'' : ∃ q ∈ ps, q.2 < v := by
          obtain ⟨q, hq, hqv⟩ := hex
          rcases List.mem_cons.mp hq with rfl | hq
          · exact absurd hqv hp
          · exact ⟨q, hq, hqv⟩
        obtain ⟨pre, x, post, heq, hxv, hmin, hpre, hres⟩ := @ih v b₀ hex''
        refine ⟨p :: pre, x, post, by rw [heq]; rfl, hxv, ?_, ?_, ?_⟩
        · intro y hy
          rcases List.mem_cons.mp hy with rfl | hy
          · exact le_of_lt (lt_of_lt_of_le hxv (not_lt.mp hp))
          · exact hmin y hy
        · intro y hy
          rcases List.mem_cons.mp hy with rfl | hy
          · exact lt_of_lt_of_le hxv (not_lt.mp hp)
          · exact hpre y hy
        · rw [hstep, if_neg hp]
          exact hres

/-! ### Helpers for the remaining claims -/

/-- With a single drone the inner `while drone_idx > 0` loop never runs, so
every entry of the reconstructed drone list is `0`. -/
theorem backtrace_drones_zero {run : DPRun} (hD : run.de.num_drones = 1) :
    ∀ (n : ℕ) (temp : Cost), ∀ d ∈ (backtrace_aux run n temp).2, d = 0 := by
  intro n
  induction n with
  | zero => intro temp d hd; cases hd
  | succ n ih =>
      intro temp d hd
      simp only [backtrace_aux, hD] at hd
      rcases List.mem_append.mp hd with h | h
      · exact ih _ d h
      · rcases List.mem_cons.mp h with rfl | h
        · rfl
        · cases h

/-- `dynamic_programming` only depends on the state after the usage-table
substitution of lines 161-164. -/
theorem dynamic_programming_congr {d1 d2 : DroneExtinguisher}
    (h : d1.usage_filled = d2.usage_filled) :
    dynamic_programming d1 = dynamic_programming d2 := by
  unfold dynamic_programming
  rw [h]

/-! ## The claims -/

/-- C2: for `0 ≤ i ≤ j < N` and `t` the idle time of batch `i..j`,
`compute_idle_cost(i, j, t)` is the infeasible marker `⊤` when `t < 0`,
is `0` when bag `j` is the last bag (`j + 1 = N`) and `t ≥ 0`, and is `t^3`
otherwise. -/
theorem C2_idle_cost_cases (de : DroneExtinguisher) (i j : ℕ)
    (hij : i ≤ j) (hj : j < de.num_bags) :
    (de.compute_sequence_idle_time_in_liters i j < 0 →
      de.compute_idle_cost i j (de.compute_sequence_idle_time_in_liters i j) = ⊤)
    ∧ (0 ≤ de.compute_sequence_idle_time_in_liters i j → j + 1 = de.num_bags →
      de.compute_idle_cost i j (de.compute_sequence_idle_time_in_liters i j) = 0)
    ∧ (0 ≤ de.compute_sequence_idle_time_in_liters i j → j + 1 ≠ de.num_bags →
      de.compute_idle_cost i j (de.compute_sequence_idle_time_in_liters i j)
        = ((de.compute_sequence_idle_time_in_liters i j ^ 3 : ℤ) : Cost)) := by
  unfold DroneExtinguisher.compute_idle_cost
  refine ⟨fun h => by rw [if_pos h], fun h hlast => ?_, fun h hlast => ?_⟩
  · rw [if_neg (not_lt.mpr h), if_pos hlast]
  · rw [if_neg (not_lt.mpr h), if_neg hlast]

/-- A minimal well-formed instance (bag of 1 liter at the forest itself,
budget 2, one drone with zero usage cost), used to instantiate theorems with
hypotheses. -/

theorem C2_idle_cost_cases_witness :
    ((0 : ℕ) ≤ 0 ∧ 0 < deSmall.num_bags)
    ∧ ((deSmall.compute_sequence_idle_time_in_liters 0 0 < 0 →
        deSmall.compute_idle_cost 0 0 (deSmall.compute_sequence_idle_time_in_liters 0 0) = ⊤)
      ∧ (0 ≤ deSmall.compute_sequence_idle_time_in_liters 0 0 → 0 + 1 = deSmall.num_bags →
        deSmall.compute_idle_cost 0 0 (deSmall.compute_sequence_idle_time_in_liters 0 0) = 0)
      ∧ (0 ≤ deSmall.compute_sequence_idle_time_in_liters 0 0 → 0 + 1 ≠ deSmall.num_bags →
        deSmall.compute_idle_cost 0 0 (deSmall.compute_sequence_idle_time_in_liters 0 0)
          = ((deSmall.compute_sequence_idle_time_in_liters 0 0 ^ 3 : ℤ) : Cost))) :=
  ⟨⟨le_refl 0, by decide⟩, C2_idle_cost_cases deSmall 0 0 (le_refl 0) (by decide)⟩

theorem C7_counterexample :
    deMalformed.num_bags = 2
    ∧ deMalformed.bag_locations.length = 1
    ∧ deMalformed.num_drones = 0
    ∧ deMalformed.liter_budget_per_day = -5 := by decide

/-- C7 amended: the constructor performs no validation at all — it always
succeeds and stores every input verbatim (mismatched lengths, zero drones and
non-positive budgets included); failures, if any, only surface later while
the tables are being used. -/
theorem C7_no_validation (f : ℚ × ℚ) (bags : List ℤ) (locs : List (ℚ × ℚ))
    (c : ℚ) (B : ℤ) (u : Option (List (List ℤ))) :
    (DroneExtinguisher.init f bags locs c B u).bags = bags
    ∧ (DroneExtinguisher.init f bags locs c B u).bag_locations = locs
    ∧ (DroneExtinguisher.init f bags locs c B u).liter_budget_per_day = B
    ∧ (DroneExtinguisher.init f bags locs c B u).usage_cost = u
    ∧ (DroneExtinguisher.init f bags locs c B u).num_bags = bags.length :=
  ⟨rfl, rfl, rfl, rfl, rfl⟩

/-- C8: with `usage_cost = None`, `dynamic_programming` substitutes an
all-zero table (one column, since `num_drones` was set to 1) and computes
exactly the same result as with an explicit all-zero table of the same
shape; nothing fails on the missing table. -/
theorem C8_none_is_zero_table (f : ℚ × ℚ) (bags : List ℤ) (locs : List (ℚ × ℚ))
    (c : ℚ) (B : ℤ) (hne : bags ≠ []) :
    ((DroneExtinguisher.init f bags locs c B
        none).fill_travel_costs_in_liters).usage_filled.usage_cost
      = some (List.replicate bags.length (List.replicate 1 0))
    ∧ dynamic_programming
        ((DroneExtinguisher.init f bags locs c B none).fill_travel_costs_in_liters)
      = dynamic_programming
        ((DroneExtinguisher.init f bags locs c B
            (some (List.replicate bags.length
              (List.replicate 1 0)))).fill_travel_costs_in_liters) := by
  cases bags with
  | nil => exact absurd rfl hne
  | cons b bs =>
      constructor
      · rfl
      · exact dynamic_programming_congr rfl

theorem C8_none_is_zero_table_witness :
    (([1] : List ℤ) ≠ [])
    ∧ (((DroneExtinguisher.init (0, 0) [1] [(0, 0)] 0 2
          none).fill_travel_costs_in_liters).usage_filled.usage_cost
        = some (List.replicate (List.length ([1] : List ℤ)) (List.replicate 1 0))
      ∧ dynamic_programming
          ((DroneExtinguisher.init (0, 0) [1] [(0, 0)] 0 2
            none).fill_travel_costs_in_liters)
        = dynamic_programming
          ((DroneExtinguisher.init (0, 0) [1] [(0, 0)] 0 2
              (some (List.replicate (List.length ([1] : List ℤ))
                (List.replicate 1 0)))).fill_travel_costs_in_liters)) :=
  ⟨by decide, C8_none_is_zero_table (0, 0) [1] [(0, 0)] 0 2 (by decide)⟩

/-- C10: with `usage_cost = None` the solver operates with exactly one
drone: `num_drones = 1`, every row of the optimal-cost table has one single
column, and the reconstructed plan only ever assigns drone `0`. -/
theorem C10_single_drone (f : ℚ × ℚ) (bags : List ℤ) (locs : List (ℚ × ℚ))
    (c : ℚ) (B : ℤ) (run : DPRun)
    (h : dynamic_programming
        ((DroneExtinguisher.init f bags locs c B none).fill_travel_costs_in_liters)
      = some run) :
    (DroneExtinguisher.init f bags locs c B none).num_drones = 1
    ∧ run.de.num_drones = 1
    ∧ (∀ row ∈ run.optimal_cost, row.length = 1)
    ∧ (∀ d ∈ (backtrace_solution run).2, d = 0) := by
  obtain ⟨hde, hdims, _, _, _⟩ := dp_run_spec h
  have hD : run.de.num_drones = 1 := by
    rw [hde, (usage_filled_fields _).2.1]
    rfl
  refine ⟨rfl, hD, ?_, ?_⟩
  · intro row hrow
    have hlen := hdims.2 row hrow
    rw [hD] at hlen
    exact hlen
  · exact backtrace_drones_zero hD _ _

unseal Rat.add Rat.mul Rat.sub Rat.inv in
theorem C10_single_drone_witness :
    dynamic_programming deNoUsage = some (dpRunOf deNoUsage)
    ∧ ((DroneExtinguisher.init (0, 0) [1] [(0, 0)] 0 2 none).num_drones = 1
      ∧ (dpRunOf deNoUsage).de.num_drones = 1
      ∧ (∀ row ∈ (dpRunOf deNoUsage).optimal_cost, row.length = 1)
      ∧ (∀ d ∈ (backtrace_solution (dpRunOf deNoUsage)).2, d = 0)) :=
  ⟨by decide,
    C10_single_drone (0, 0) [1] [(0, 0)] 0 2 (dpRunOf deNoUsage) (by decide)⟩

set_option maxRecDepth 40000 in
unseal Rat.add Rat.mul Rat.sub Rat.inv in
/-- C9: on the concrete scenario-2 instance, after filling the travel costs
and running the dynamic program, `lowest_cost()` is exactly 2414. -/
theorem C9_concrete_scenario :
    dynamic_programming deScenario2 = some (dpRunOf deScenario2)
    ∧ lowest_cost (dpRunOf deScenario2) = ((2414 : ℤ) : Cost) := by decide

unseal Rat.add Rat.mul Rat.sub Rat.inv in
/-- C3 (code bug): on `deBacktrace` the dynamic program completes with
minimal cost 10, achieved by the one-day plan "bags 0-1 with drone 0"
(the transition `(j, h, l) = (0, 0, 0)` at `b = 2` costs exactly 10), yet
`backtrace_solution` returns `([0, 1], [1, 0])`: two day-starts instead of
one, and a drone list that *decreases* from day 0 (drone 1) to day 1
(drone 0), violating the non-decreasing-drone invariant. -/
theorem C3_backtrace_code_bug :
    dynamic_programming deBacktrace = some (dpRunOf deBacktrace)
    ∧ lowest_cost (dpRunOf deBacktrace) = ((10 : ℤ) : Cost)
    ∧ transition_cost (dpRunOf deBacktrace).de (dpRunOf deBacktrace).optimal_cost 2 (0, 0, 0)
      = ((10 : ℤ) : Cost)
    ∧ backtrace_solution (dpRunOf deBacktrace) = ([0, 1], [1, 0])
    ∧ ¬ ((backtrace_solution (dpRunOf deBacktrace)).2.getD 0 0
        ≤ (backtrace_solution (dpRunOf deBacktrace)).2.getD 1 0) := by decide

unseal Rat.add Rat.mul Rat.sub Rat.inv in
/-- C4 counterexample: at state `(1, 1)` the scan visits
`(0,0,0), (0,0,1), (0,1,1)`, all with transition cost 0.  The *last*
minimizer in scan order is `(0,1,1)`, whose recorded pair would be `(0, 1)`;
the code records `(0, 0)` — the *first* minimizer — because line 191 updates
only on strict improvement (`<`). -/
theorem C4_counterexample :
    dynamic_programming deTie = some (dpRunOf deTie)
    ∧ dp_pairs (dpRunOf deTie).de (dpRunOf deTie).optimal_cost 1 1
      = [((0, 0, 0), (0 : Cost)), ((0, 0, 1), (0 : Cost)), ((0, 1, 1), (0 : Cost))]
    ∧ memLookup (1, 1) (dpRunOf deTie).backtrace_memory = some (0, 0)
    ∧ ((0, 0) : ℕ × ℕ) ≠ (0, 1) := by decide

/-- C1: after `fill_travel_costs_in_liters` and a completed
`dynamic_programming` on an instance with `N` bags and `K ≥ 1` drones,
`lowest_cost()` is `optimal_cost[N][K-1]`; `optimal_cost[0][k] = 0` for every
`k`; and for `1 ≤ b ≤ N`, `0 ≤ k < K` the cell `optimal_cost[b][k]` is the
least value of
`optimal_cost[j][h] + idle_cost[j][b-1] + usage(j, b-1, l)` over all
`0 ≤ j < b`, `0 ≤ h ≤ k`, `h ≤ l ≤ k` — an achieved minimum (`IsLeast`). -/
theorem C1_recurrence {de : DroneExtinguisher} {run : DPRun}
    (h : dynamic_programming de = some run) (hD : 1 ≤ run.de.num_drones) :
    lowest_cost run = cell run.optimal_cost run.de.num_bags (run.de.num_drones - 1)
    ∧ (∀ k, cell run.optimal_cost 0 k = 0)
    ∧ (∀ b k, 1 ≤ b → b ≤ run.de.num_bags → k < run.de.num_drones →
        IsLeast {c : Cost | ∃ j hh l, j < b ∧ hh ≤ k ∧ hh ≤ l ∧ l ≤ k ∧
            c = cell run.optimal_cost j hh + run.de.idle_cost j (b - 1)
                + ((run.de.compute_sequence_usage_cost j (b - 1) l : ℤ) : Cost)}
          (cell run.optimal_cost b k)) := by
  obtain ⟨_, hdims, hZ, hW, _⟩ := dp_run_spec h
  refine ⟨lowest_cost_eq_cell hdims hD, hZ, ?_⟩
  intro b k hb1 hb2 hk
  constructor
  · have hmem : cell run.optimal_cost b k ∈ cell_costs run.de run.optimal_cost b k := by
      rw [hW b k hb1 hb2 hk]
      exact listMin_mem (cell_costs_ne_nil hb1)
    obtain ⟨t, ht, hcost⟩ := mem_cell_costs.mp hmem
    obtain ⟨hj, hhl, hlk⟩ := mem_scan_triples.mp ht
    exact ⟨t.1, t.2.1, t.2.2, hj, le_trans hhl hlk, hhl, hlk, hcost.symm⟩
  · rintro c ⟨j, hh, l, hjb, hhk, hhl, hlk, rfl⟩
    rw [hW b k hb1 hb2 hk]
    apply listMin_le
    rw [mem_cell_costs]
    exact ⟨(j, hh, l), mem_scan_triples.mpr ⟨hjb, hhl, hlk⟩, rfl⟩

unseal Rat.add Rat.mul Rat.sub Rat.inv in
theorem C1_recurrence_witness :
    dynamic_programming deSmall = some (dpRunOf deSmall)
    ∧ 1 ≤ (dpRunOf deSmall).de.num_drones
    ∧ (lowest_cost (dpRunOf deSmall)
        = cell (dpRunOf deSmall).optimal_cost (dpRunOf deSmall).de.num_bags
            ((dpRunOf deSmall).de.num_drones - 1)
      ∧ (∀ k, cell (dpRunOf deSmall).optimal_cost 0 k = 0)
      ∧ (∀ b k, 1 ≤ b → b ≤ (dpRunOf deSmall).de.num_bags →
          k < (dpRunOf deSmall).de.num_drones →
          IsLeast {c : Cost | ∃ j hh l, j < b ∧ hh ≤ k ∧ hh ≤ l ∧ l ≤ k ∧
              c = cell (dpRunOf deSmall).optimal_cost j hh
                  + (dpRunOf deSmall).de.idle_cost j (b - 1)
                  + (((dpRunOf deSmall).de.compute_sequence_usage_cost j (b - 1) l : ℤ)
                      : Cost)}
            (cell (dpRunOf deSmall).optimal_cost b k))) :=
  ⟨by decide, by decide, @C1_recurrence deSmall (dpRunOf deSmall) (by decide) (by decide)⟩

/-- C5: after a completed run, adding a drone never increases the optimal
cost: `optimal_cost[b][k+1] ≤ optimal_cost[b][k]` for every `0 ≤ b ≤ N` and
`0 ≤ k < K - 1`. -/
theorem C5_more_drones_help {de : DroneExtinguisher} {run : DPRun}
    (h : dynamic_programming de = some run) (b k : ℕ)
    (hb : b ≤ run.de.num_bags) (hk : k + 1 < run.de.num_drones) :
    cell run.optimal_cost b (k + 1) ≤ cell run.optimal_cost b k := by
  obtain ⟨_, _, hZ, hW, _⟩ := dp_run_spec h
  rcases Nat.eq_zero_or_pos b with rfl | hb1
  · rw [hZ k, hZ (k + 1)]
  · rw [hW b k hb1 hb (by omega), hW b (k + 1) hb1 hb hk]
    have hmem : listMin (cell_costs run.de run.optimal_cost b k)
        ∈ cell_costs run.de run.optimal_cost b k :=
      listMin_mem (cell_costs_ne_nil hb1)
    obtain ⟨t, ht, hcost⟩ := mem_cell_costs.mp hmem
    obtain ⟨hj, hhl, hlk⟩ := mem_scan_triples.mp ht
    have hmem' : transition_cost run.de run.optimal_cost b t
        ∈ cell_costs run.de run.optimal_cost b (k + 1) :=
      mem_cell_costs.mpr ⟨t, mem_scan_triples.mpr ⟨hj, hhl, by omega⟩, rfl⟩
    calc listMin (cell_costs run.de run.optimal_cost b (k + 1))
        ≤ transition_cost run.de run.optimal_cost b t := listMin_le hmem'
      _ = listMin (cell_costs run.de run.optimal_cost b k) := hcost

unseal Rat.add Rat.mul Rat.sub Rat.inv in
theorem C5_more_drones_help_witness :
    dynamic_programming deTie = some (dpRunOf deTie)
    ∧ (1 : ℕ) ≤ (dpRunOf deTie).de.num_bags
    ∧ 0 + 1 < (dpRunOf deTie).de.num_drones
    ∧ cell (dpRunOf deTie).optimal_cost 1 (0 + 1) ≤ cell (dpRunOf deTie).optimal_cost 1 0 :=
  ⟨by decide, by decide, by decide,
    @C5_more_drones_help deTie (dpRunOf deTie) (by decide) 1 0 (by decide) (by decide)⟩

/-- C4 amended: when the cost list of a recorded state `(b, K-1)` contains a
finite cost, `backtrace_memory[(b, K-1)]` holds the projection `(j, l)` of
the **first** minimizer in scan order (the scan of lines 191-194 updates only
on strict improvement, so later ties never overwrite it): the recorded triple
achieves the minimum and every strictly earlier triple costs strictly more. -/
theorem C4_first_minimizer {de : DroneExtinguisher} {run : DPRun}
    (h : dynamic_programming de = some run) (b : ℕ)
    (hD : 1 ≤ run.de.num_drones) (hb1 : 1 ≤ b) (hb2 : b ≤ run.de.num_bags)
    (hfin : ∃ p ∈ dp_pairs run.de run.optimal_cost b (run.de.num_drones - 1), p.2 < ⊤) :
    ∃ pre x post,
      dp_pairs run.de run.optimal_cost b (run.de.num_drones - 1) = pre ++ x :: post
      ∧ (∀ y ∈ dp_pairs run.de run.optimal_cost b (run.de.num_drones - 1), x.2 ≤ y.2)
      ∧ (∀ y ∈ pre, x.2 < y.2)
      ∧ memLookup (b, run.de.num_drones - 1) run.backtrace_memory
          = some (x.1.1, x.1.2.2) := by
  obtain ⟨_, _, _, _, hMem⟩ := dp_run_spec h
  obtain ⟨pr, hlook, o, hscan⟩ := hMem hD b hb1 hb2
  obtain ⟨pre, x, post, heq, hxv, hmin, hpre, hres⟩ :=
    @strict_min_scan_first (dp_pairs run.de run.optimal_cost b (run.de.num_drones - 1))
      ⊤ o hfin
  refine ⟨pre, x, post, heq, hmin, hpre, ?_⟩
  rw [hlook]
  exact (hscan.symm.trans hres) ▸ rfl

unseal Rat.add Rat.mul Rat.sub Rat.inv in
theorem C4_first_minimizer_witness :
    dynamic_programming deTie = some (dpRunOf deTie)
    ∧ 1 ≤ (dpRunOf deTie).de.num_drones
    ∧ (1 : ℕ) ≤ 1
    ∧ (1 : ℕ) ≤ (dpRunOf deTie).de.num_bags
    ∧ (∃ p ∈ dp_pairs (dpRunOf deTie).de (dpRunOf deTie).optimal_cost 1
          ((dpRunOf deTie).de.num_drones - 1), p.2 < ⊤)
    ∧ (∃ pre x post,
        dp_pairs (dpRunOf deTie).de (dpRunOf deTie).optimal_cost 1
            ((dpRunOf deTie).de.num_drones - 1) = pre ++ x :: post
        ∧ (∀ y ∈ dp_pairs (dpRunOf deTie).de (dpRunOf deTie).optimal_cost 1
              ((dpRunOf deTie).de.num_drones - 1), x.2 ≤ y.2)
        ∧ (∀ y ∈ pre, x.2 < y.2)
        ∧ memLookup (1, (dpRunOf deTie).de.num_drones - 1)
              (dpRunOf deTie).backtrace_memory
            = some (x.1.1, x.1.2.2)) :=
  ⟨by decide, by decide, le_refl 1, by decide, by decide,
    @C4_first_minimizer deTie (dpRunOf deTie) (by decide) 1 (by decide)
      (le_refl 1) (by decide) (by decide)⟩

unseal Rat.add Rat.mul Rat.sub Rat.inv in
/-- C6 counterexample: when the overweight bag is bag 0, every scanned cost
stays `np.inf`, the locals `first_bag`/`drone_num` are never assigned, and
`dynamic_programming` aborts with an `UnboundLocalError` (modelled by
`none`) at its first bookkeeping step — `lowest_cost()` is never reached, so
it does not "return the infeasible marker" as the claim states. -/
theorem C6_counterexample :
    deOverweightFirst.liter_budget_per_day
      < deOverweightFirst.bags.getD 0 0 + deOverweightFirst.travel_costs_in_liters.getD 0 0
    ∧ dynamic_programming deOverweightFirst = none := by decide

/-- C6 amended: if some bag's content plus round-trip travel cost exceeds
the daily budget (all weights nonnegative), then every batch containing that
bag has infeasible (`⊤`) idle cost, and **provided `dynamic_programming`
completes at all** (it aborts with an uninitialized-local error when already
the first bag's own batch is infeasible), `lowest_cost()` returns the
infeasible marker `⊤`. -/
theorem C6_overweight_infeasible {de : DroneExtinguisher} {run : DPRun}
    (h : dynamic_programming de = some run) (m : ℕ)
    (hm : m < run.de.num_bags) (hD : 1 ≤ run.de.num_drones)
    (hnn : ∀ t, t < run.de.num_bags →
      0 ≤ run.de.travel_costs_in_liters.getD t 0 + run.de.bags.getD t 0)
    (hover : run.de.liter_budget_per_day
      < run.de.travel_costs_in_liters.getD m 0 + run.de.bags.getD m 0) :
    (∀ i j, i ≤ m → m ≤ j → j < run.de.num_bags → run.de.idle_cost i j = ⊤)
    ∧ lowest_cost run = ⊤ := by
  have hidle : ∀ i j, i ≤ m → m ≤ j → j < run.de.num_bags → run.de.idle_cost i j = ⊤ := by
    intro i j him hmj hjN
    exact idle_cost_top_of_overweight him hmj (fun t hit htj => hnn t (by omega)) hover
  refine ⟨hidle, ?_⟩
  obtain ⟨_, hdims, hZ, hW, _⟩ := dp_run_spec h
  have htop : ∀ b, m < b → b ≤ run.de.num_bags → ∀ k, k < run.de.num_drones →
      cell run.optimal_cost b k = ⊤ := by
    intro b
    induction b using Nat.strong_induction_on with
    | _ b ih =>
        intro hmb hbN k hk
        rw [hW b k (by omega) hbN hk]
        apply listMin_eq_top
        intro x hx
        obtain ⟨t, ht, hcost⟩ := mem_cell_costs.mp hx
        obtain ⟨hj, hhl, hlk⟩ := mem_scan_triples.mp ht
        rcases Nat.lt_or_ge m t.1 with hmt | hmt
        · have hcell : cell run.optimal_cost t.1 t.2.1 = ⊤ :=
            ih t.1 hj hmt (by omega) t.2.1 (by omega)
          rw [← hcost]
          unfold transition_cost
          rw [hcell]
          simp
        · have hid : run.de.idle_cost t.1 (b - 1) = ⊤ :=
            hidle t.1 (b - 1) hmt (by omega) (by omega)
          rw [← hcost]
          unfold transition_cost
          rw [hid]
          simp
  rw [lowest_cost_eq_cell hdims hD]
  exact htop run.de.num_bags (by omega) (le_refl _) _ (by omega)

unseal Rat.add Rat.mul Rat.sub Rat.inv in
theorem C6_overweight_infeasible_witness :
    dynamic_programming deOverweightLater = some (dpRunOf deOverweightLater)
    ∧ (1 : ℕ) < (dpRunOf deOverweightLater).de.num_bags
    ∧ 1 ≤ (dpRunOf deOverweightLater).de.num_drones
    ∧ (∀ t, t < (dpRunOf deOverweightLater).de.num_bags →
        0 ≤ (dpRunOf deOverweightLater).de.travel_costs_in_liters.getD t 0
          + (dpRunOf deOverweightLater).de.bags.getD t 0)
    ∧ (dpRunOf deOverweightLater).de.liter_budget_per_day
        < (dpRunOf deOverweightLater).de.travel_costs_in_liters.getD 1 0
          + (dpRunOf deOverweightLater).de.bags.getD 1 0
    ∧ ((∀ i j, i ≤ 1 → 1 ≤ j → j < (dpRunOf deOverweightLater).de.num_bags →
          (dpRunOf deOverweightLater).de.idle_cost i j = ⊤)
      ∧ lowest_cost (dpRunOf deOverweightLater) = ⊤) :=
  ⟨by decide, by decide, by decide, by decide, by decide,
    @C6_overweight_infeasible deOverweightLater (dpRunOf deOverweightLater)
      (by decide) 1 (by decide) (by decide) (by decide) (by decide)⟩
